import Mathlib

/-!
Shallow embedding of `FormulaGenerator/generator.py` (randomized modal-CNF
formula generator) and verification of its specified properties.

The Python random source is modelled as an explicit stream `s : ℕ → ℚ` of
values (each draw of `random.random()` reads the next stream position).
`random.randint(1, n)` is modelled by inverse-transform sampling on one
stream value; for a stream value `r ∈ [0,1)` this yields a value in
`[1, n]`, and it raises (returns `none`) when `n = 0`, as Python's
`randint` does on an empty range.

Computations run in `GenM α := ℕ → Option (α × ℕ)`: a function from the
current stream index to an optional result together with the next unused
index; `none` models a Python exception escaping the function.
-/

namespace S5Gen

/-- State-plus-exception monad over the random-stream index. -/
def GenM (α : Type) : Type := ℕ → Option (α × ℕ)

/-- Sequencing for `GenM`. -/
def gbind {α β : Type} (x : GenM α) (f : α → GenM β) : GenM β := fun i =>
  match x i with
  | none => none
  | some r => f r.1 r.2

/-- Pure value in `GenM`: consumes no randomness. -/
def gpure {α : Type} (a : α) : GenM α := fun i => some (a, i)

/-- Map over the result of a `GenM` computation. -/
def gmap {α β : Type} (f : α → β) (x : GenM α) : GenM β :=
  gbind x fun a => gpure (f a)

/-- `rnd_sign`: one draw; `random.random() < 0.5` (result `true` means the
literal is negated, following the source's use of the flag). -/
def rndSign (s : ℕ → ℚ) : GenM Bool := fun i =>
  some (decide (s i < 1/2), i + 1)

/-- `rnd_propositional_atom`: `random.randint(1, N)`, modelled by inverse
transform on one stream draw; `none` models the `ValueError` Python raises
when `N = 0` (empty range). -/
def rndPropositionalAtom (s : ℕ → ℚ) (N : ℕ) : GenM ℕ := fun i =>
  if N = 0 then none else some (1 + (Int.toNat ⌊s i * N⌋) % N, i + 1)

/-- `rnd_box`: `random.randint(1, m)`, same model as
`rndPropositionalAtom`. -/
def rndBox (s : ℕ → ℚ) (m : ℕ) : GenM ℕ := fun i =>
  if m = 0 then none else some (1 + (Int.toNat ⌊s i * m⌋) % m, i + 1)

/-- The cumulative-sum walk shared by `rnd_length` and `rnd_propnum`:
`cumulative += val; if r <= cumulative: return i`.  Returns the 0-based
position, or `none` on fall-through. -/
def walkCum (r : ℚ) : List ℚ → ℚ → ℕ → Option ℕ
  | [], _, _ => none
  | v :: tl, cum, i => if r ≤ cum + v then some i else walkCum r tl (cum + v) (i + 1)

/-- `rnd_length(d, C)`: clause-length sampler.  Out-of-range depth falls
back to 3 without drawing; an all-zero weight vector returns its length
without drawing; otherwise one draw is scaled by the total weight and the
cumulative walk returns position+1 (fall-through: the vector's length). -/
def rndLength (s : ℕ → ℚ) (d : ℕ) (C : List (List ℚ)) : GenM ℕ := fun i =>
  if h : d < C.length then
    if (C.get ⟨d, h⟩).sum = 0 then some ((C.get ⟨d, h⟩).length, i)
    else
      some (((walkCum (s i * (C.get ⟨d, h⟩).sum) (C.get ⟨d, h⟩) 0 0).map (· + 1)).getD
        (C.get ⟨d, h⟩).length, i + 1)
  else some (3, i)

/-- The body `rnd_propnum` runs on its selected weight vector: an
all-zero vector returns 0 without drawing; otherwise one draw is scaled
by the total weight and the cumulative walk returns the 0-based position
(fall-through: 0). -/
def sampleIdx (s : ℕ → ℚ) (ld : List ℚ) : GenM ℕ := fun i =>
  if ld.sum = 0 then some (0, i)
  else some ((walkCum (s i * ld.sum) ld 0 0).getD 0, i + 1)

/-- `rnd_propnum(d, p, K)`: propositional-count sampler.  Out-of-range
depth returns 0; `K = 0` makes Python index `p[d][-1]` (its last vector,
or an `IndexError` — `none` — when `p[d]` is empty); `K - 1 ≥ len(p[d])`
returns 0; an all-zero vector returns 0 without drawing; otherwise one
draw walks the cumulative sum (fall-through: 0). -/
def rndPropnum (s : ℕ → ℚ) (d : ℕ) (p : List (List (List ℚ))) (K : ℕ) : GenM ℕ := fun i =>
  if h : d < p.length then
    if K = 0 then
      match (p.get ⟨d, h⟩).getLast? with
      | none => none
      | some ld => sampleIdx s ld i
    else
      if h2 : K - 1 < (p.get ⟨d, h⟩).length then
        sampleIdx s ((p.get ⟨d, h⟩).get ⟨K - 1, h2⟩) i
      else some (0, i)
  else some (0, i)

mutual
/-- An atom of the generated formula: a propositional variable index or a
box index applied to an inner clause. -/
inductive Atom : Type where
  | prop (n : ℕ) : Atom
  | box (b : ℕ) (c : ClauseS) : Atom

/-- A clause as a list of signed atoms (the `neg` flag is the source's
`sign`, `true` meaning negated). -/
inductive ClauseS : Type where
  | nil : ClauseS
  | cons (neg : Bool) (a : Atom) (tl : ClauseS) : ClauseS
end

/-- A literal during clause construction: sign flag and atom. -/
def Lit : Type := Bool × Atom

/-- Convert the literal list built by the clause loop into a `ClauseS`. -/
def ofList : List Lit → ClauseS
  | [] => .nil
  | (sg, a) :: tl => .cons sg a (ofList tl)

/-- Python's `<` on strings: lexicographic comparison of the two
character sequences by code point. -/
def pyCharsLt : List Char → List Char → Bool
  | [], [] => false
  | [], _ :: _ => true
  | _ :: _, [] => false
  | a :: as, b :: bs => if a < b then true else if b < a then false else pyCharsLt as bs

/-- The non-strict order induced by `pyCharsLt`, used as the sort
comparator. -/
def pyStrLe (a b : String) : Bool := ! pyCharsLt b.data a.data

/-- Sort a list of strings as Python's `sorted` does (a stable sort by
code-point lexicographic order; stability makes the result unique, so any
stable sort models it). -/
def sortStrs (l : List String) : List String :=
  l.mergeSort pyStrLe

/-- `' ∨ '.join(sorted(clause))`. -/
def clauseJoin (l : List String) : String :=
  String.intercalate " ∨ " (sortStrs l)

mutual
/-- Serialization of an atom: `f"A{n}"` or `f"{box}({clause})"` where the
inner clause is the sorted-joined text. -/
def atomStr : Atom → String
  | .prop n => "A" ++ toString n
  | .box b c => "□" ++ toString b ++ "(" ++ clauseJoin (clauseStrs c) ++ ")"

/-- Literal texts of a clause, in construction order. -/
def clauseStrs : ClauseS → List String
  | .nil => []
  | .cons neg a tl => (if neg then "¬" ++ atomStr a else atomStr a) :: clauseStrs tl
end

mutual
/-- Modal nesting depth of an atom: 0 for propositional atoms, one more
than the inner clause's depth for boxed atoms. -/
def atomDepth : Atom → ℕ
  | .prop _ => 0
  | .box _ c => 1 + clauseDepth c

/-- Depth of a clause: the maximum depth of its atoms. -/
def clauseDepth : ClauseS → ℕ
  | .nil => 0
  | .cons _ a tl => max (atomDepth a) (clauseDepth tl)
end

/-- Serialization of a literal built from a sign flag and an atom. -/
def litStr (l : Lit) : String :=
  if l.1 then "¬" ++ atomStr l.2 else atomStr l.2

/-- `literal[1:] if literal.startswith('¬') else literal` (the prefix is
a single character, so this is a test on the first character). -/
def stripNeg (l : String) : String :=
  match l.data with
  | [] => l
  | c :: tl => if c = '¬' then String.mk tl else l

/-- `no_repeated_atoms_in`: the literals' atom texts (sign stripped) are
pairwise distinct. -/
def noRepeatedAtomsIn (lits : List String) : Bool :=
  decide ((lits.map stripNeg).Nodup)

/-- The depth-0 branch of `rnd_atom`: a propositional atom. -/
def propAtomG (s : ℕ → ℚ) (N : ℕ) : GenM Atom :=
  gmap Atom.prop (rndPropositionalAtom s N)

/-- The depth-`d+1` branch of `rnd_atom`: draw a box index, then build the
inner clause with the supplied generator (the clause builder one depth
down). -/
def boxAtomG (s : ℕ → ℚ) (m : ℕ) (inner : GenM (List Lit)) : GenM Atom :=
  gbind (rndBox s m) fun b =>
  gbind inner fun c =>
  gpure (Atom.box b (ofList c))

/-- Build `cnt` literals: for each, draw the atom with `ag`, then the
sign, appending in order (the source's two `for` loops both have this
shape). -/
def genLits (s : ℕ → ℚ) (ag : GenM Atom) : ℕ → GenM (List Lit)
  | 0 => gpure []
  | c + 1 =>
    gbind ag fun a =>
    gbind (rndSign s) fun sg =>
    gbind (genLits s ag c) fun rest =>
    gpure ((sg, a) :: rest)

/-- One iteration of `rnd_clause`'s loop body: draw `K`, draw `P`, build
`P` propositional literals then `K - P` literals with the depth-`d` atom
generator. -/
def clauseAttempt (s : ℕ → ℚ) (N : ℕ) (ag : GenM Atom) (d : ℕ)
    (p : List (List (List ℚ))) (C : List (List ℚ)) : GenM (List Lit) :=
  gbind (rndLength s d C) fun K =>
  gbind (rndPropnum s d p K) fun P =>
  gbind (genLits s (propAtomG s N) P) fun A =>
  gbind (genLits s ag (K - P)) fun B =>
  gpure (A ++ B)

/-- `rnd_clause`'s retry loop, instrumented with the number of loop-body
iterations executed.  `last` is the most recently drawn clause (returned
when the budget runs out, exactly as the source's final `return`). -/
def clauseTryI (att : GenM (List Lit)) : ℕ → List Lit → GenM (List Lit × ℕ)
  | 0, last => gpure (last, 0)
  | fuel + 1, _ =>
    gbind att fun c =>
    if noRepeatedAtomsIn (c.map litStr) then gpure (c, 1)
    else gbind (clauseTryI att fuel c) fun r => gpure (r.1, r.2 + 1)

/-- `rnd_clause(d, m, N, p, C)` with its attempt count, by recursion on
the depth; the modal-atom generator at depth `d+1` recurses into the
clause builder at depth `d` (the source's `rnd_atom(d, ...)` calling
`rnd_clause(d - 1, ...)`). -/
def rndClauseI (s : ℕ → ℚ) (m N : ℕ) (p : List (List (List ℚ)))
    (C : List (List ℚ)) : ℕ → GenM (List Lit × ℕ)
  | 0 => clauseTryI (clauseAttempt s N (propAtomG s N) 0 p C) 100 []
  | d + 1 =>
    clauseTryI
      (clauseAttempt s N
        (boxAtomG s m (gmap Prod.fst (rndClauseI s m N p C d))) (d + 1) p C)
      100 []

/-- `rnd_clause` proper: the literal list of the clause it returns. -/
def rndClause (s : ℕ → ℚ) (m N : ℕ) (p : List (List (List ℚ)))
    (C : List (List ℚ)) (d : ℕ) : GenM (List Lit) :=
  gmap Prod.fst (rndClauseI s m N p C d)

/-- `rnd_atom(d, m, N, p, C)`: propositional at depth 0, boxed inner
clause at depth `d - 1` otherwise. -/
def rndAtom (s : ℕ → ℚ) (m N : ℕ) (p : List (List (List ℚ)))
    (C : List (List ℚ)) : ℕ → GenM Atom
  | 0 => propAtomG s N
  | d + 1 => boxAtomG s m (rndClause s m N p C d)

/-- The serialized clause text `rnd_clause` actually returns:
`' ∨ '.join(sorted(clause))`. -/
def rndClauseStr (s : ℕ → ℚ) (m N : ℕ) (p : List (List (List ℚ)))
    (C : List (List ℚ)) (d : ℕ) : GenM String :=
  gmap (fun l => clauseJoin (l.map litStr)) (rndClause s m N p C d)

/-- `is_new`: the clause text is not already in the accumulated list
(here the list carries the clause's literal structure alongside the text
the source stores; membership is tested on the text alone). -/
def isNew (str : String) (acc : List (String × List Lit)) : Bool :=
  !((acc.map Prod.fst).contains str)

/-- `rnd_CNF`'s collection loop, instrumented with the attempt count:
while fewer than `L` clauses are collected and fuel remains, draw a
clause and append it when its text is new. -/
def cnfLoop (g : GenM (List Lit)) (L : ℕ) :
    ℕ → List (String × List Lit) → GenM (List (String × List Lit) × ℕ)
  | 0, acc => gpure (acc, 0)
  | fuel + 1, acc =>
    if acc.length < L then
      gbind g fun lits =>
        gbind (cnfLoop g L fuel (if isNew (clauseJoin (lits.map litStr)) acc then
          acc ++ [(clauseJoin (lits.map litStr), lits)] else acc))
          fun r => gpure (r.1, r.2 + 1)
    else gpure (acc, 0)

/-- `rnd_CNF(d, m, L, N, p, C)` with its attempt count: budget `L * 10`,
starting from the empty list. -/
def rndCNF (s : ℕ → ℚ) (d m L N : ℕ) (p : List (List (List ℚ)))
    (C : List (List ℚ)) : GenM (List (String × List Lit) × ℕ) :=
  cnfLoop (rndClause s m N p C d) L (L * 10) []

/-- The numeric parameters `main` receives from `argparse` (integers, so
they may be negative). -/
structure Args where
  depth : ℤ
  clauses : ℤ
  numVars : ℤ
  boxes : ℤ

/-- `main`'s parameter validation, in source order: each failing check
prints its message and exits before any generation happens. -/
def validateArgs (a : Args) : Except String Unit :=
  if a.depth < 0 then .error "depth must be non-negative"
  else if a.clauses < 1 then .error "number of clauses must be at least 1"
  else if a.numVars < 1 then .error "number of variables must be at least 1"
  else if a.boxes < 1 then .error "number of boxes must be at least 1"
  else .ok ()

/-- `main`'s generation path for one formula: validate, then run
`rnd_CNF` from stream position 0.  On validation failure no random draw
is consumed and no output is produced; a `none` from generation models a
Python exception.  The `ok` payload is the formula's clause texts
together with the number of draws consumed. -/
def runMain (s : ℕ → ℚ) (a : Args) (p : List (List (List ℚ)))
    (C : List (List ℚ)) : Except String (List String × ℕ) :=
  match validateArgs a with
  | .error e => .error e
  | .ok _ =>
    match rndCNF s a.depth.toNat a.boxes.toNat a.clauses.toNat a.numVars.toNat p C 0 with
    | none => .error "generation raised"
    | some (r, i) => .ok (r.1.map Prod.fst, i)

/-! ### Proof infrastructure -/

/-- Concrete test streams used in witnesses and counterexamples. -/
def constHalf : ℕ → ℚ := fun _ => 1 / 2

/-- The all-zero stream (every draw is `0.0`, a legal `random.random()`
value). -/
def constZero : ℕ → ℚ := fun _ => 0

/-- The depth-0 clause-length table of the spec's fixed scenario:
`[[0,0,1]]` (length 3 whenever the draw is positive). -/
def cTab : List (List ℚ) := [[0, 0, 1]]

/-- The literal-mix table of the spec's fixed scenario, forcing `P = K`
at every length whenever the draw is positive. -/
def pTab : List (List (List ℚ)) := [[[0, 1], [0, 0, 1], [0, 0, 0, 1]]]

/-- A literal-mix table forcing `P = K` for lengths 1 and 2 at depth 0
(used with `lenTwoTab` to exhaust the clause retry budget with one
variable). -/
def pTwo : List (List (List ℚ)) := [[[0, 1], [0, 0, 1]]]

/-- A clause-length table forcing length 2 at depth 0 on positive
draws. -/
def lenTwoTab : List (List ℚ) := [[0, 1]]

/-- Arguments with a valid parameter set whose clause-length table (the
empty list) is shorter than `depth + 1 = 2`. -/
def shortTabArgs : Args := ⟨1, 1, 3, 1⟩

/-- A literal-mix table of full length `depth + 1 = 2` forcing `P = 3`
at depth 1, length 3. -/
def pFull : List (List (List ℚ)) := [[[0, 1]], [[], [], [0, 0, 0, 1]]]

/-- Stream driving `shortTabArgs` generation to one all-propositional
clause `A1 ∨ A2 ∨ A3` in 7 draws. -/
def streamA : ℕ → ℚ := fun n =>
  (([9/10, 0, 9/10, 2/5, 9/10, 7/10, 9/10] : List ℚ).get? n).getD 0

/-- Stream driving the fixed scenario of the spec to two distinct
clauses in 8 draws. -/
def streamB : ℕ → ℚ := fun n =>
  (([0, 0, 0, 0, 0, 0, 0, 9/10] : List ℚ).get? n).getD 0

/-- `Except.isOk` as a plain boolean discriminator. -/
def isOkE {ε α : Type} : Except ε α → Bool
  | .ok _ => true
  | .error _ => false

/-- The result of the `(k+1)`-th run of `g` when `g` is re-run from the
state each run leaves behind (the shape of `rnd_clause`'s retries). -/
def iterAtt {α : Type} (g : GenM α) : ℕ → GenM α
  | 0 => g
  | k + 1 => gbind g fun _ => iterAtt g k

/-- Postcondition of a `GenM` computation: whenever it succeeds, the
result satisfies `Q`. -/
def SatM {α : Type} (g : GenM α) (Q : α → Prop) : Prop :=
  ∀ i r i', g i = some (r, i') → Q r

lemma gpure_eq {α : Type} (a : α) (i : ℕ) : gpure a i = some (a, i) := rfl

lemma gbind_of {α β : Type} {x : GenM α} {f : α → GenM β} {i : ℕ} {a : α} {j : ℕ}
    (hx : x i = some (a, j)) : gbind x f i = f a j := by
  unfold gbind; rw [hx]

lemma gbind_inv {α β : Type} {x : GenM α} {f : α → GenM β} {i : ℕ} {r : β} {i' : ℕ}
    (h : gbind x f i = some (r, i')) :
    ∃ a j, x i = some (a, j) ∧ f a j = some (r, i') := by
  unfold gbind at h
  rcases hx : x i with - | ⟨a, j⟩
  · rw [hx] at h
    exact absurd h (by simp)
  · rw [hx] at h
    exact ⟨a, j, hx ▸ rfl, h⟩

lemma satM_pure {α : Type} {a : α} {Q : α → Prop} (h : Q a) : SatM (gpure a) Q := by
  intro i r i' hr
  cases hr
  exact h

lemma satM_bind {α β : Type} {x : GenM α} {f : α → GenM β} {Q : α → Prop} {R : β → Prop}
    (hx : SatM x Q) (hf : ∀ a, Q a → SatM (f a) R) : SatM (gbind x f) R := by
  intro i r i' hr
  obtain ⟨a, j, hxa, hfa⟩ := gbind_inv hr
  exact hf a (hx i a j hxa) j r i' hfa

lemma satM_map {α β : Type} {x : GenM α} {f : α → β} {Q : α → Prop} {R : β → Prop}
    (hx : SatM x Q) (hf : ∀ a, Q a → R (f a)) : SatM (gmap f x) R :=
  satM_bind hx fun a ha => satM_pure (hf a ha)

lemma satM_propAtomG (s : ℕ → ℚ) (N : ℕ) :
    SatM (propAtomG s N) (fun a => ∃ n, a = Atom.prop n ∧ 1 ≤ n ∧ n ≤ N) := by
  intro i r i' hr
  unfold propAtomG gmap gbind gpure rndPropositionalAtom at hr
  by_cases hN : N = 0
  · simp [hN] at hr
  · simp only [hN, if_false] at hr
    cases hr
    refine ⟨_, rfl, Nat.le_add_right 1 _, ?_⟩
    have := Nat.mod_lt (Int.toNat ⌊s i * N⌋) (Nat.pos_of_ne_zero hN)
    omega

lemma satM_genLits {s : ℕ → ℚ} {ag : GenM Atom} {Q : Atom → Prop}
    (hag : SatM ag Q) (cnt : ℕ) :
    SatM (genLits s ag cnt) (fun l => l.length = cnt ∧ ∀ x ∈ l, Q x.2) := by
  induction cnt with
  | zero => exact satM_pure (by simp)
  | succ c ih =>
    refine satM_bind hag fun a ha => ?_
    refine satM_bind (Q := fun _ => True) (fun _ _ _ _ => trivial) fun sg _ => ?_
    refine satM_bind ih fun rest hrest => satM_pure ?_
    refine ⟨by simp [hrest.1], ?_⟩
    intro x hx
    rcases List.mem_cons.mp hx with h | h
    · rw [h]; exact ha
    · exact hrest.2 x h

lemma gpure_inv {α : Type} {a r : α} {i i' : ℕ} (h : gpure a i = some (r, i')) :
    r = a ∧ i' = i := by
  rw [gpure_eq] at h
  have := Option.some.inj h
  exact ⟨(Prod.ext_iff.mp this).1.symm, (Prod.ext_iff.mp this).2.symm⟩

lemma satM_clauseTryI {att : GenM (List Lit)} {Q : List Lit → Prop}
    (hatt : SatM att Q) :
    ∀ (fuel : ℕ) (last : List Lit), Q last →
      SatM (clauseTryI att fuel last) (fun r => Q r.1 ∧ r.2 ≤ fuel) := by
  intro fuel
  induction fuel with
  | zero =>
    intro last hlast i r i' hr
    obtain ⟨h1, -⟩ := gpure_inv hr
    rw [h1]
    exact ⟨hlast, le_refl 0⟩
  | succ f ih =>
    intro last _ i r i' hr
    unfold clauseTryI at hr
    obtain ⟨c, j, hc, hrest⟩ := gbind_inv hr
    have hQc := hatt i c j hc
    by_cases hok : noRepeatedAtomsIn (c.map litStr) = true
    · rw [if_pos hok] at hrest
      obtain ⟨h1, -⟩ := gpure_inv hrest
      rw [h1]
      exact ⟨hQc, by omega⟩
    · rw [if_neg hok] at hrest
      obtain ⟨r2, j2, hr2, hr3⟩ := gbind_inv hrest
      have hind := ih c hQc j r2 j2 hr2
      obtain ⟨h1, -⟩ := gpure_inv hr3
      rw [h1]
      exact ⟨hind.1, by omega⟩

lemma satM_clauseTryI_pos {att : GenM (List Lit)} {Q : List Lit → Prop}
    (hatt : SatM att Q) (fuel : ℕ) (last : List Lit) :
    SatM (clauseTryI att (fuel + 1) last) (fun r => Q r.1) := by
  intro i r i' hr
  unfold clauseTryI at hr
  obtain ⟨c, j, hc, hrest⟩ := gbind_inv hr
  have hQc := hatt i c j hc
  by_cases hok : noRepeatedAtomsIn (c.map litStr) = true
  · rw [if_pos hok] at hrest
    obtain ⟨h1, -⟩ := gpure_inv hrest
    rw [h1]
    exact hQc
  · rw [if_neg hok] at hrest
    obtain ⟨r2, j2, hr2, hr3⟩ := gbind_inv hrest
    have hind := satM_clauseTryI hatt fuel c hQc j r2 j2 hr2
    obtain ⟨h1, -⟩ := gpure_inv hr3
    rw [h1]
    exact hind.1

lemma satM_clauseAttempt {s : ℕ → ℚ} {N : ℕ} {ag : GenM Atom} {d : ℕ}
    {p : List (List (List ℚ))} {C : List (List ℚ)} {Q : Atom → Prop}
    (hpa : SatM (propAtomG s N) Q) (hag : SatM ag Q) :
    SatM (clauseAttempt s N ag d p C) (fun l => ∀ x ∈ l, Q x.2) := by
  refine satM_bind (Q := fun _ => True) (fun _ _ _ _ => trivial) fun K _ => ?_
  refine satM_bind (Q := fun _ => True) (fun _ _ _ _ => trivial) fun P _ => ?_
  refine satM_bind (satM_genLits hpa P) fun A hA => ?_
  refine satM_bind (satM_genLits hag (K - P)) fun B hB => satM_pure ?_
  intro x hx
  rcases List.mem_append.mp hx with h | h
  · exact hA.2 x h
  · exact hB.2 x h

lemma rndClauseI_eq (s : ℕ → ℚ) (m N : ℕ) (p : List (List (List ℚ)))
    (C : List (List ℚ)) (d : ℕ) :
    rndClauseI s m N p C d =
      clauseTryI (clauseAttempt s N (rndAtom s m N p C d) d p C) 100 [] := by
  cases d <;> rfl

lemma clauseDepth_ofList_le {l : List Lit} {d : ℕ}
    (h : ∀ x ∈ l, atomDepth x.2 ≤ d) : clauseDepth (ofList l) ≤ d := by
  induction l with
  | nil => simp [ofList, clauseDepth]
  | cons x tl ih =>
    obtain ⟨sg, a⟩ := x
    simp only [ofList, clauseDepth]
    exact max_le (h (sg, a) (by simp)) (ih fun y hy => h y (List.mem_cons_of_mem _ hy))

lemma depthInvariant (s : ℕ → ℚ) (m N : ℕ) (p : List (List (List ℚ)))
    (C : List (List ℚ)) :
    ∀ d, SatM (rndAtom s m N p C d) (fun a => atomDepth a ≤ d) ∧
      SatM (rndClauseI s m N p C d) (fun r => ∀ x ∈ r.1, atomDepth x.2 ≤ d) := by
  intro d
  induction d with
  | zero =>
    have hA : SatM (rndAtom s m N p C 0) (fun a => atomDepth a ≤ 0) := by
      intro i r i' hr
      obtain ⟨n, hn, -, -⟩ := satM_propAtomG s N i r i' hr
      rw [hn]
      simp [atomDepth]
    refine ⟨hA, ?_⟩
    rw [rndClauseI_eq]
    have hatt := satM_clauseAttempt (s := s) (N := N) (d := 0) (p := p) (C := C) hA hA
    intro i r i' hr
    exact (satM_clauseTryI hatt 100 [] (by simp) i r i' hr).1
  | succ d ih =>
    have hA : SatM (rndAtom s m N p C (d + 1)) (fun a => atomDepth a ≤ d + 1) := by
      intro i r i' hr
      unfold rndAtom boxAtomG at hr
      obtain ⟨b, j, hb, hrest⟩ := gbind_inv hr
      obtain ⟨c, j2, hcl, hp⟩ := gbind_inv hrest
      obtain ⟨h1, -⟩ := gpure_inv hp
      rw [h1]
      have hc : ∀ x ∈ c, atomDepth x.2 ≤ d := by
        unfold rndClause gmap at hcl
        obtain ⟨rr, jj, hrr, hpp⟩ := gbind_inv hcl
        obtain ⟨h2, -⟩ := gpure_inv hpp
        rw [h2]
        exact ih.2 j rr jj hrr
      have := clauseDepth_ofList_le hc
      simp only [atomDepth]
      omega
    refine ⟨hA, ?_⟩
    rw [rndClauseI_eq]
    have hpa0 : SatM (propAtomG s N) (fun a => atomDepth a ≤ d + 1) := by
      intro i r i' hr
      obtain ⟨n, hn, -, -⟩ := satM_propAtomG s N i r i' hr
      rw [hn]
      simp [atomDepth]
    have hatt := satM_clauseAttempt (s := s) (N := N) (d := d + 1) (p := p) (C := C) hpa0 hA
    intro i r i' hr
    exact (satM_clauseTryI hatt 100 [] (by simp) i r i' hr).1

lemma walkCum_lt {r : ℚ} :
    ∀ (l : List ℚ) (cum : ℚ) (i j : ℕ), walkCum r l cum i = some j → j < i + l.length := by
  intro l
  induction l with
  | nil => intro cum i j h; exact absurd h (by simp [walkCum])
  | cons v tl ih =>
    intro cum i j h
    unfold walkCum at h
    by_cases hc : r ≤ cum + v
    · rw [if_pos hc] at h
      have hij := Option.some.inj h
      simp only [List.length_cons]
      omega
    · rw [if_neg hc] at h
      have := ih (cum + v) (i + 1) j h
      simp only [List.length_cons]
      omega

lemma sampleIdx_lt {s : ℕ → ℚ} {ld : List ℚ} {i P i' : ℕ}
    (h : sampleIdx s ld i = some (P, i')) : P = 0 ∨ P < ld.length := by
  unfold sampleIdx at h
  by_cases hz : ld.sum = 0
  · rw [if_pos hz] at h
    exact Or.inl (Prod.ext_iff.mp (Option.some.inj h)).1.symm
  · rw [if_neg hz] at h
    have hP := (Prod.ext_iff.mp (Option.some.inj h)).1
    cases hw : walkCum (s i * ld.sum) ld 0 0 with
    | none => rw [hw] at hP; exact Or.inl hP.symm
    | some j =>
      rw [hw] at hP
      simp only [Option.getD_some] at hP
      have := walkCum_lt ld 0 0 j hw
      right
      omega

lemma rndPropnum_le {s : ℕ → ℚ} {d K P i i' : ℕ} {p : List (List (List ℚ))}
    (hK : 1 ≤ K) (h : rndPropnum s d p K i = some (P, i'))
    (hlen : ∀ dd ∈ p, ∀ v ∈ dd, v.length ≤ K + 1) : P ≤ K := by
  unfold rndPropnum at h
  by_cases hd : d < p.length
  · rw [dif_pos hd] at h
    have hK0 : ¬ (K = 0) := by omega
    rw [if_neg hK0] at h
    by_cases h2 : K - 1 < (p.get ⟨d, hd⟩).length
    · rw [dif_pos h2] at h
      have hmem : (p.get ⟨d, hd⟩).get ⟨K - 1, h2⟩ ∈ p.get ⟨d, hd⟩ := List.get_mem _ _ h2
      have hlv := hlen _ (List.get_mem p d hd) _ hmem
      rcases sampleIdx_lt h with h0 | hlt
      · omega
      · omega
    · rw [dif_neg h2] at h
      have := (Prod.ext_iff.mp (Option.some.inj h)).1
      omega
  · rw [dif_neg hd] at h
    have := (Prod.ext_iff.mp (Option.some.inj h)).1
    omega

lemma cnfLoop_inv {g : GenM (List Lit)} {L : ℕ} :
    ∀ (fuel : ℕ) (acc : List (String × List Lit)) (i : ℕ)
      (res : List (String × List Lit)) (a i' : ℕ),
      cnfLoop g L fuel acc i = some ((res, a), i') →
      acc.length ≤ res.length ∧ a ≤ fuel ∧ (res.length < L → a = fuel) ∧
      (acc.length ≤ L → res.length ≤ L) ∧
      ((acc.map Prod.fst).Nodup → (res.map Prod.fst).Nodup) := by
  intro fuel
  induction fuel with
  | zero =>
    intro acc i res a i' h
    obtain ⟨h1, -⟩ := gpure_inv h
    obtain ⟨hres, ha⟩ := Prod.ext_iff.mp h1
    simp only at hres ha
    rw [hres, ha]
    exact ⟨le_refl _, le_refl 0, fun _ => rfl, fun hl => hl, fun hn => hn⟩
  | succ f ih =>
    intro acc i res a i' h
    unfold cnfLoop at h
    by_cases hlt : acc.length < L
    · rw [if_pos hlt] at h
      obtain ⟨lits, j, hg, hrest⟩ := gbind_inv h
      obtain ⟨r2, j2, hloop, hp⟩ := gbind_inv hrest
      obtain ⟨h1, -⟩ := gpure_inv hp
      obtain ⟨hres, ha⟩ := Prod.ext_iff.mp h1
      simp only at hres ha
      by_cases hnew : isNew (clauseJoin (lits.map litStr)) acc = true
      · rw [if_pos hnew] at hloop
        obtain ⟨hl1, hl2, hl3, hl4, hl5⟩ := ih _ j r2.1 r2.2 j2 (by rw [← Prod.mk.eta (p := r2)] at hloop; exact hloop)
        have hstr : ¬ (clauseJoin (lits.map litStr)) ∈ acc.map Prod.fst := by
          unfold isNew at hnew
          simp only [Bool.not_eq_eq_eq_not, Bool.not_true] at hnew
          simpa using hnew
        refine ⟨?_, by omega, fun hs => by rw [ha]; rw [hl3 (hres ▸ hs)], fun hL => ?_, fun hn => ?_⟩
        · rw [hres]
          simp only [List.length_append, List.length_cons, List.length_nil] at hl1
          omega
        · rw [hres]
          refine hl4 ?_
          simp only [List.length_append, List.length_cons, List.length_nil]
          omega
        · rw [hres]
          refine hl5 ?_
          simp only [List.map_append, List.map_cons, List.map_nil]
          rw [List.nodup_append]
          exact ⟨hn, List.nodup_singleton _, by
            intro x hx hx2
            simp only [List.mem_singleton] at hx2
            rw [hx2] at hx
            exact hstr hx⟩
      · rw [if_neg hnew] at hloop
        obtain ⟨hl1, hl2, hl3, hl4, hl5⟩ := ih _ j r2.1 r2.2 j2 (by rw [← Prod.mk.eta (p := r2)] at hloop; exact hloop)
        exact ⟨hres ▸ hl1, by omega, fun hs => by rw [ha, hl3 (hres ▸ hs)],
          fun hL => hres ▸ hl4 hL, fun hn => hres ▸ hl5 hn⟩
    · rw [if_neg hlt] at h
      obtain ⟨h1, -⟩ := gpure_inv h
      obtain ⟨hres, ha⟩ := Prod.ext_iff.mp h1
      simp only at hres ha
      rw [hres, ha]
      exact ⟨le_refl _, by omega, fun hs => absurd hs hlt, fun hL => hL, fun hn => hn⟩

lemma cnfLoop_one {g : GenM (List Lit)} {L fuel i : ℕ}
    {res : List (String × List Lit)} {a i' : ℕ}
    (hf : 1 ≤ fuel) (hL : 1 ≤ L)
    (h : cnfLoop g L fuel [] i = some ((res, a), i')) : 1 ≤ res.length := by
  obtain ⟨f, rfl⟩ : ∃ f, fuel = f + 1 := ⟨fuel - 1, by omega⟩
  unfold cnfLoop at h
  rw [if_pos (by simpa using hL)] at h
  obtain ⟨lits, j, hg, hrest⟩ := gbind_inv h
  obtain ⟨r2, j2, hloop, hp⟩ := gbind_inv hrest
  obtain ⟨h1, -⟩ := gpure_inv hp
  obtain ⟨hres, -⟩ := Prod.ext_iff.mp h1
  simp only at hres
  have hnew : isNew (clauseJoin (lits.map litStr)) [] = true := rfl
  rw [if_pos hnew] at hloop
  have := (cnfLoop_inv f _ j r2.1 r2.2 j2
    (by rw [← Prod.mk.eta (p := r2)] at hloop; exact hloop)).1
  simp only [List.nil_append, List.length_cons, List.length_nil] at this
  rw [hres]
  omega

lemma cnfLoop_satall {g : GenM (List Lit)} {L : ℕ} {Q : List Lit → Prop}
    (hg : SatM g Q) :
    ∀ (fuel : ℕ) (acc : List (String × List Lit)) (i : ℕ)
      (res : List (String × List Lit)) (a i' : ℕ),
      (∀ pr ∈ acc, Q pr.2 ∧ pr.1 = clauseJoin (pr.2.map litStr)) →
      cnfLoop g L fuel acc i = some ((res, a), i') →
      ∀ pr ∈ res, Q pr.2 ∧ pr.1 = clauseJoin (pr.2.map litStr) := by
  intro fuel
  induction fuel with
  | zero =>
    intro acc i res a i' hacc h
    obtain ⟨h1, -⟩ := gpure_inv h
    obtain ⟨hres, -⟩ := Prod.ext_iff.mp h1
    simp only at hres
    rw [hres]
    exact hacc
  | succ f ih =>
    intro acc i res a i' hacc h
    unfold cnfLoop at h
    by_cases hlt : acc.length < L
    · rw [if_pos hlt] at h
      obtain ⟨lits, j, hg2, hrest⟩ := gbind_inv h
      obtain ⟨r2, j2, hloop, hp⟩ := gbind_inv hrest
      obtain ⟨h1, -⟩ := gpure_inv hp
      obtain ⟨hres, -⟩ := Prod.ext_iff.mp h1
      simp only at hres
      have hQl := hg i lits j hg2
      by_cases hnew : isNew (clauseJoin (lits.map litStr)) acc = true
      · rw [if_pos hnew] at hloop
        have hacc2 : ∀ pr ∈ acc ++ [(clauseJoin (lits.map litStr), lits)],
            Q pr.2 ∧ pr.1 = clauseJoin (pr.2.map litStr) := by
          intro pr hpr
          rcases List.mem_append.mp hpr with hh | hh
          · exact hacc pr hh
          · simp only [List.mem_singleton] at hh
            rw [hh]
            exact ⟨hQl, rfl⟩
        have := ih _ j r2.1 r2.2 j2 hacc2
          (by rw [← Prod.mk.eta (p := r2)] at hloop; exact hloop)
        rw [hres]
        exact this
      · rw [if_neg hnew] at hloop
        have := ih _ j r2.1 r2.2 j2 hacc
          (by rw [← Prod.mk.eta (p := r2)] at hloop; exact hloop)
        rw [hres]
        exact this
    · rw [if_neg hlt] at h
      obtain ⟨h1, -⟩ := gpure_inv h
      obtain ⟨hres, -⟩ := Prod.ext_iff.mp h1
      simp only at hres
      rw [hres]
      exact hacc

lemma walkCum_two {r : ℚ} (h0 : 0 < r) (h1 : r ≤ 1) :
    walkCum r [0, 1] 0 0 = some 1 := by
  simp only [walkCum]
  rw [if_neg (by linarith), if_pos (by linarith)]

lemma walkCum_three {r : ℚ} (h0 : 0 < r) (h1 : r ≤ 1) :
    walkCum r [0, 0, 1] 0 0 = some 2 := by
  simp only [walkCum]
  rw [if_neg (by linarith), if_neg (by linarith), if_pos (by linarith)]

lemma walkCum_four {r : ℚ} (h0 : 0 < r) (h1 : r ≤ 1) :
    walkCum r [0, 0, 0, 1] 0 0 = some 3 := by
  simp only [walkCum]
  rw [if_neg (by linarith), if_neg (by linarith), if_neg (by linarith), if_pos (by linarith)]

lemma rndLength_cTab {s : ℕ → ℚ} {i : ℕ} (h0 : 0 < s i) (h1 : s i < 1) :
    rndLength s 0 cTab i = some (3, i + 1) := by
  unfold rndLength
  rw [dif_pos (by norm_num [cTab])]
  have hget : cTab.get ⟨0, by norm_num [cTab]⟩ = [0, 0, 1] := rfl
  rw [hget]
  rw [if_neg (by norm_num)]
  rw [show ([(0 : ℚ), 0, 1]).sum = 1 by norm_num]
  rw [mul_one, walkCum_three h0 (le_of_lt h1)]
  rfl

lemma rndPropnum_pTab {s : ℕ → ℚ} {i : ℕ} (h0 : 0 < s i) (h1 : s i < 1) :
    rndPropnum s 0 pTab 3 i = some (3, i + 1) := by
  unfold rndPropnum
  rw [dif_pos (by norm_num [pTab])]
  rw [if_neg (by norm_num)]
  rw [dif_pos (by norm_num [pTab])]
  have hget : (pTab.get ⟨0, by norm_num [pTab]⟩).get ⟨3 - 1, by norm_num [pTab]⟩ =
      [0, 0, 0, 1] := rfl
  rw [hget]
  unfold sampleIdx
  rw [if_neg (by norm_num)]
  rw [show ([(0 : ℚ), 0, 0, 1]).sum = 1 by norm_num]
  rw [mul_one, walkCum_four h0 (le_of_lt h1)]
  rfl

lemma rndLength_lenTwoTab (i : ℕ) : rndLength constHalf 0 lenTwoTab i = some (2, i + 1) := by
  unfold rndLength
  rw [dif_pos (by norm_num [lenTwoTab])]
  have hget : lenTwoTab.get ⟨0, by norm_num [lenTwoTab]⟩ = [0, 1] := rfl
  rw [hget]
  rw [if_neg (by norm_num)]
  rw [show ([(0 : ℚ), 1]).sum = 1 by norm_num]
  rw [mul_one, walkCum_two (by norm_num [constHalf]) (by norm_num [constHalf])]
  rfl

lemma rndPropnum_pTwo (i : ℕ) : rndPropnum constHalf 0 pTwo 2 i = some (2, i + 1) := by
  unfold rndPropnum
  rw [dif_pos (by norm_num [pTwo])]
  rw [if_neg (by norm_num)]
  rw [dif_pos (by norm_num [pTwo])]
  have hget : (pTwo.get ⟨0, by norm_num [pTwo]⟩).get ⟨2 - 1, by norm_num [pTwo]⟩ =
      [0, 0, 1] := rfl
  rw [hget]
  unfold sampleIdx
  rw [if_neg (by norm_num)]
  rw [show ([(0 : ℚ), 0, 1]).sum = 1 by norm_num]
  rw [mul_one, walkCum_three (by norm_num [constHalf]) (by norm_num [constHalf])]
  rfl

lemma propAtomG_half_one (j : ℕ) : propAtomG constHalf 1 j = some (Atom.prop 1, j + 1) := by
  unfold propAtomG gmap gbind gpure rndPropositionalAtom constHalf
  norm_num

lemma propAtomG_half_two (j : ℕ) : propAtomG constHalf 2 j = some (Atom.prop 2, j + 1) := by
  unfold propAtomG gmap gbind gpure rndPropositionalAtom constHalf
  norm_num

lemma rndSign_half (j : ℕ) : rndSign constHalf j = some (false, j + 1) := by
  unfold rndSign
  norm_num [constHalf]

lemma genLits_const {s : ℕ → ℚ} {ag : GenM Atom} {a0 : Atom} {sg : Bool}
    (hag : ∀ j, ag j = some (a0, j + 1))
    (hsg : ∀ j, rndSign s j = some (sg, j + 1)) :
    ∀ (k j : ℕ), genLits s ag k j = some (List.replicate k (sg, a0), j + 2 * k) := by
  intro k
  induction k with
  | zero => intro j; simp [genLits, gpure]
  | succ n ih =>
    intro j
    unfold genLits
    rw [gbind_of (hag j), gbind_of (hsg (j + 1)), gbind_of (ih (j + 1 + 1))]
    rw [gpure_eq]
    congr 2
    omega

lemma iterAtt_const {α : Type} {g : GenM α} {c0 : α} {step : ℕ}
    (hg : ∀ i, g i = some (c0, i + step)) :
    ∀ (k i : ℕ), iterAtt g k i = some (c0, i + (k + 1) * step) := by
  intro k
  induction k with
  | zero =>
    intro i
    unfold iterAtt
    rw [hg i]
    congr 2
    omega
  | succ n ih =>
    intro i
    unfold iterAtt
    rw [gbind_of (hg i), ih (i + step)]
    congr 2
    ring

lemma clauseTryI_const_fail {att : GenM (List Lit)} {c0 : List Lit} {step : ℕ}
    (hatt : ∀ i, att i = some (c0, i + step))
    (hfail : noRepeatedAtomsIn (c0.map litStr) = false) :
    ∀ (f : ℕ) (last : List Lit) (i : ℕ),
      clauseTryI att (f + 1) last i = some ((c0, f + 1), i + (f + 1) * step) := by
  intro f
  induction f with
  | zero =>
    intro last i
    unfold clauseTryI
    rw [gbind_of (hatt i), if_neg (by simp [hfail])]
    show some ((c0, 0 + 1), i + step) = _
    congr 2
    omega
  | succ n ih =>
    intro last i
    unfold clauseTryI
    rw [gbind_of (hatt i), if_neg (by simp [hfail]), gbind_of (ih c0 (i + step))]
    rw [gpure_eq]
    congr 2
    ring

lemma cnfLoop_const_skip {g : GenM (List Lit)} {c0 : List Lit} {step L : ℕ}
    (hg : ∀ i, g i = some (c0, i + step)) (acc : List (String × List Lit))
    (hmem : isNew (clauseJoin (c0.map litStr)) acc = false)
    (hlen : acc.length < L) :
    ∀ (fuel i : ℕ), cnfLoop g L fuel acc i = some ((acc, fuel), i + fuel * step) := by
  intro fuel
  induction fuel with
  | zero => intro i; simp [cnfLoop, gpure]
  | succ f ih =>
    intro i
    unfold cnfLoop
    rw [if_pos hlen, gbind_of (hg i)]
    rw [show (if isNew (clauseJoin (c0.map litStr)) acc = true then
        acc ++ [(clauseJoin (c0.map litStr), c0)] else acc) = acc by rw [hmem]; simp]
    rw [gbind_of (ih (i + step))]
    rw [gpure_eq]
    congr 2
    ring

lemma cnfLoop_go {g : GenM (List Lit)} {L f : ℕ} {acc : List (String × List Lit)}
    (h : acc.length < L) :
    cnfLoop g L (f + 1) acc = gbind g fun lits =>
      gbind (cnfLoop g L f (if isNew (clauseJoin (lits.map litStr)) acc = true then
        acc ++ [(clauseJoin (lits.map litStr), lits)] else acc)) fun r =>
      gpure (r.1, r.2 + 1) := by
  rw [show cnfLoop g L (f + 1) acc = if acc.length < L then (gbind g fun lits =>
      gbind (cnfLoop g L f (if isNew (clauseJoin (lits.map litStr)) acc = true then
        acc ++ [(clauseJoin (lits.map litStr), lits)] else acc)) fun r =>
      gpure (r.1, r.2 + 1)) else gpure (acc, 0) from rfl]
  rw [if_pos h]

lemma cnfLoop_halt {g : GenM (List Lit)} {L f : ℕ} {acc : List (String × List Lit)}
    (h : ¬ acc.length < L) :
    cnfLoop g L (f + 1) acc = gpure (acc, 0) := by
  rw [show cnfLoop g L (f + 1) acc = if acc.length < L then (gbind g fun lits =>
      gbind (cnfLoop g L f (if isNew (clauseJoin (lits.map litStr)) acc = true then
        acc ++ [(clauseJoin (lits.map litStr), lits)] else acc)) fun r =>
      gpure (r.1, r.2 + 1)) else gpure (acc, 0) from rfl]
  rw [if_neg h]

lemma clauseTryI_all_fail {att : GenM (List Lit)} :
    ∀ (fuel i : ℕ) (last : List Lit),
      (∀ k, k < fuel + 1 → ∀ c j, iterAtt att k i = some (c, j) →
        noRepeatedAtomsIn (c.map litStr) = false) →
      ∀ c j, iterAtt att fuel i = some (c, j) →
        clauseTryI att (fuel + 1) last i = some ((c, fuel + 1), j) := by
  intro fuel
  induction fuel with
  | zero =>
    intro i last hf c j hit
    unfold iterAtt at hit
    unfold clauseTryI
    rw [gbind_of hit, if_neg (by simp [hf 0 (by omega) c j hit])]
    rfl
  | succ f ih =>
    intro i last hf c j hit
    unfold iterAtt at hit
    obtain ⟨c0, j0, h0, hrest⟩ := gbind_inv hit
    have hfail0 : noRepeatedAtomsIn (c0.map litStr) = false := hf 0 (by omega) c0 j0 h0
    have hfs : ∀ k, k < f + 1 → ∀ c2 j2, iterAtt att k j0 = some (c2, j2) →
        noRepeatedAtomsIn (c2.map litStr) = false := by
      intro k hk c2 j2 hit2
      refine hf (k + 1) (by omega) c2 j2 ?_
      show gbind att (fun _ => iterAtt att k) i = some (c2, j2)
      rw [gbind_of h0]
      exact hit2
    unfold clauseTryI
    rw [gbind_of h0, if_neg (by simp [hfail0]), gbind_of (ih j0 c0 hfs c j hrest)]
    rfl

/-! ### Claims -/

/-- C9: when the depth index is outside the clause-length table's range,
`rnd_length` returns the default clause length 3; when the depth or the
chosen clause length (at least 1) is outside the propositional-count
table's range, `rnd_propnum` returns count 0; in neither case is an
exception raised (the result is `some`), and no draw is consumed. -/
theorem claim9_out_of_range_fallback :
    (∀ (s : ℕ → ℚ) (C : List (List ℚ)) (d i : ℕ), C.length ≤ d →
      rndLength s d C i = some (3, i)) ∧
    (∀ (s : ℕ → ℚ) (p : List (List (List ℚ))) (d K i : ℕ), p.length ≤ d →
      rndPropnum s d p K i = some (0, i)) ∧
    (∀ (s : ℕ → ℚ) (p : List (List (List ℚ))) (d K i : ℕ) (h : d < p.length), 1 ≤ K →
      (p.get ⟨d, h⟩).length ≤ K - 1 → rndPropnum s d p K i = some (0, i)) := by
  refine ⟨fun s C d i h => ?_, fun s p d K i h => ?_, fun s p d K i h hK h2 => ?_⟩
  · unfold rndLength
    rw [dif_neg (by omega)]
  · unfold rndPropnum
    rw [dif_neg (by omega)]
  · unfold rndPropnum
    rw [dif_pos h, if_neg (by omega), dif_neg (by omega)]

/-- Witness for C9 at concrete inputs: a depth past the table end, a
depth past the count table, and a length past the inner vector. -/
theorem claim9_witness :
    rndLength constHalf 2 [[1]] 5 = some (3, 5) ∧
    rndPropnum constHalf 3 [[[1]]] 2 7 = some (0, 7) ∧
    rndPropnum constHalf 0 [[[1]]] 5 7 = some (0, 7) :=
  ⟨claim9_out_of_range_fallback.1 constHalf [[1]] 2 5 (by norm_num),
   claim9_out_of_range_fallback.2.1 constHalf [[[1]]] 3 2 7 (by norm_num),
   claim9_out_of_range_fallback.2.2 constHalf [[[1]]] 0 5 7 (by norm_num) (by norm_num)
     (by norm_num)⟩

/-- C3 (amended): on an all-zero weight vector `rnd_length` does return
the table's final position (the vector's length, since positions are
1-based), consuming no draw; but `rnd_propnum` returns 0 — the FIRST
index — not the last position, also consuming no draw. -/
theorem claim3_zero_weight_policy :
    (∀ (s : ℕ → ℚ) (C : List (List ℚ)) (d i : ℕ) (h : d < C.length),
      (C.get ⟨d, h⟩).sum = 0 → rndLength s d C i = some ((C.get ⟨d, h⟩).length, i)) ∧
    (∀ (s : ℕ → ℚ) (p : List (List (List ℚ))) (d K i : ℕ) (h : d < p.length)
      (h2 : K - 1 < (p.get ⟨d, h⟩).length), 1 ≤ K →
      ((p.get ⟨d, h⟩).get ⟨K - 1, h2⟩).sum = 0 → rndPropnum s d p K i = some (0, i)) := by
  refine ⟨fun s C d i h hz => ?_, fun s p d K i h h2 hK hz => ?_⟩
  · unfold rndLength
    rw [dif_pos h, if_pos hz]
  · unfold rndPropnum
    rw [dif_pos h, if_neg (by omega), dif_pos h2]
    unfold sampleIdx
    rw [if_pos hz]

/-- Counterexample to C3 as stated: on the all-zero vector `[0, 0]`
(in-range depth 0, in-range length 1) `rnd_propnum` returns 0, which is
not the vector's last position `2 - 1 = 1`. -/
theorem claim3_counterexample :
    rndPropnum constHalf 0 [[[0, 0]]] 1 0 = some (0, 0) ∧
    ¬ ((0 : ℕ) = [(0 : ℚ), 0].length - 1) := by
  constructor
  · with_unfolding_all decide
  · norm_num

/-- Witness for C3 (amended) at concrete inputs with all-zero vectors. -/
theorem claim3_witness :
    rndLength constHalf 0 [[0, 0]] 5 = some (2, 5) ∧
    rndPropnum constHalf 0 [[[0, 0]]] 1 5 = some (0, 5) :=
  ⟨claim3_zero_weight_policy.1 constHalf [[0, 0]] 0 5 (by norm_num)
     (by with_unfolding_all decide),
   claim3_zero_weight_policy.2 constHalf [[[0, 0]]] 0 1 5 (by norm_num) (by norm_num)
     (by norm_num) (by with_unfolding_all decide)⟩

/-- C5: every atom generated by `rnd_atom` at depth 0 is propositional;
every atom generated at depth `d` has nesting depth at most `d`; and
every literal of a clause generated by `rnd_clause` at depth `d` has an
atom of nesting depth at most `d` (the modal recursion builds the inner
clause at depth `d - 1`, so nesting bottoms out at propositional
atoms). -/
theorem claim5_depth_bound :
    (∀ (s : ℕ → ℚ) (m N : ℕ) (p : List (List (List ℚ))) (C : List (List ℚ))
      (i : ℕ) (a : Atom) (i' : ℕ),
      rndAtom s m N p C 0 i = some (a, i') → ∃ n, a = Atom.prop n) ∧
    (∀ (s : ℕ → ℚ) (m N : ℕ) (p : List (List (List ℚ))) (C : List (List ℚ))
      (d i : ℕ) (a : Atom) (i' : ℕ),
      rndAtom s m N p C d i = some (a, i') → atomDepth a ≤ d) ∧
    (∀ (s : ℕ → ℚ) (m N : ℕ) (p : List (List (List ℚ))) (C : List (List ℚ))
      (d i : ℕ) (l : List Lit) (i' : ℕ),
      rndClause s m N p C d i = some (l, i') → ∀ x ∈ l, atomDepth x.2 ≤ d) := by
  refine ⟨fun s m N p C i a i' h => ?_, fun s m N p C d i a i' h => ?_,
    fun s m N p C d i l i' h => ?_⟩
  · obtain ⟨n, hn, -, -⟩ := satM_propAtomG s N i a i' h
    exact ⟨n, hn⟩
  · exact (depthInvariant s m N p C d).1 i a i' h
  · unfold rndClause gmap at h
    obtain ⟨rr, jj, hrr, hpp⟩ := gbind_inv h
    obtain ⟨h1, -⟩ := gpure_inv hpp
    rw [h1]
    exact (depthInvariant s m N p C d).2 i rr jj hrr

/-- Witness for C5: a depth-0 atom and a depth-0 clause generated under
the all-zero stream. -/
theorem claim5_witness :
    (∃ n, Atom.prop 1 = Atom.prop n) ∧
    (∀ x ∈ ([(true, Atom.prop 1)] : List Lit), atomDepth x.2 ≤ 0) :=
  ⟨claim5_depth_bound.1 constZero 1 2 pTab cTab 0 (Atom.prop 1) 1
     (by with_unfolding_all rfl),
   claim5_depth_bound.2.2 constZero 1 2 pTab cTab 0 0 [(true, Atom.prop 1)] 4
     (by with_unfolding_all rfl)⟩

/-- C6: generation always terminates within the documented budgets — the
clause builder performs at most 100 attempts, the formula assembler at
most `10 × L` attempts, and the modal recursion strictly decreases the
depth (`rnd_atom` at depth `d + 1` builds its inner clause at depth
`d`). -/
theorem claim6_termination_budgets :
    (∀ (s : ℕ → ℚ) (m N : ℕ) (p : List (List (List ℚ))) (C : List (List ℚ))
      (d i : ℕ) (r : List Lit × ℕ) (i' : ℕ),
      rndClauseI s m N p C d i = some (r, i') → r.2 ≤ 100) ∧
    (∀ (s : ℕ → ℚ) (d m L N : ℕ) (p : List (List (List ℚ))) (C : List (List ℚ))
      (i : ℕ) (r : List (String × List Lit) × ℕ) (i' : ℕ),
      rndCNF s d m L N p C i = some (r, i') → r.2 ≤ L * 10) ∧
    (∀ (s : ℕ → ℚ) (m N : ℕ) (p : List (List (List ℚ))) (C : List (List ℚ)) (d : ℕ),
      rndAtom s m N p C (d + 1) = boxAtomG s m (rndClause s m N p C d)) := by
  refine ⟨fun s m N p C d i r i' h => ?_, fun s d m L N p C i r i' h => ?_,
    fun s m N p C d => rfl⟩
  · rw [rndClauseI_eq] at h
    exact (satM_clauseTryI (fun _ _ _ _ => trivial) 100 [] trivial i r i' h).2
  · unfold rndCNF at h
    rw [← Prod.mk.eta (p := r)] at h
    exact (cnfLoop_inv (L * 10) [] i r.1 r.2 i' h).2.1

/-- Witness for C6 at concrete runs: a depth-0 clause draw that succeeds
on its first attempt, and a one-clause formula collected in one
attempt. -/
theorem claim6_witness : (1 : ℕ) ≤ 100 ∧ (1 : ℕ) ≤ 1 * 10 :=
  ⟨claim6_termination_budgets.1 constZero 1 2 pTab cTab 0 0
     ([(true, Atom.prop 1)], 1) 4 (by with_unfolding_all rfl),
   claim6_termination_budgets.2.1 constZero 0 1 1 1 [] [[1]] 0
     ([("¬A1", [(true, Atom.prop 1)])], 1) 3 (by with_unfolding_all rfl)⟩

/-- C8: `rnd_CNF` inserts a clause only if its canonical text is new (the
collected texts are pairwise distinct), collects at most `L` clauses
within at most `10 × L` attempts, and when it stops short of `L` clauses
the whole `10 × L` budget was spent, returning the collected subset
rather than raising. -/
theorem claim8_distinct_collection :
    ∀ (s : ℕ → ℚ) (d m L N : ℕ) (p : List (List (List ℚ))) (C : List (List ℚ))
      (i : ℕ) (res : List (String × List Lit)) (a i' : ℕ),
      rndCNF s d m L N p C i = some ((res, a), i') →
      res.length ≤ L ∧ (res.map Prod.fst).Nodup ∧ a ≤ L * 10 ∧
      (res.length < L → a = L * 10) := by
  intro s d m L N p C i res a i' h
  unfold rndCNF at h
  obtain ⟨h1, h2, h3, h4, h5⟩ := cnfLoop_inv (L * 10) [] i res a i' h
  exact ⟨h4 (by simp), h5 (by simp), h2, h3⟩

/-- Witness for C8 at a concrete run collecting one clause. -/
theorem claim8_witness :
    ([("¬A1", [(true, Atom.prop 1)])] : List (String × List Lit)).length ≤ 1 ∧
    (([("¬A1", [(true, Atom.prop 1)])] : List (String × List Lit)).map Prod.fst).Nodup ∧
    (1 : ℕ) ≤ 1 * 10 ∧
    (([("¬A1", [(true, Atom.prop 1)])] : List (String × List Lit)).length < 1 →
      (1 : ℕ) = 1 * 10) :=
  claim8_distinct_collection constZero 0 1 1 1 [] [[1]] 0
    [("¬A1", [(true, Atom.prop 1)])] 1 3 (by with_unfolding_all rfl)

/-- C10: for `L ≥ 1`, whatever the parameters and tables, a successful
`rnd_CNF` run returns pairwise textually distinct clauses — also in the
degraded budget-exhausted case — and at least one clause, because the
first generated clause is always inserted into the empty list. -/
theorem claim10_nonempty_nodup :
    ∀ (s : ℕ → ℚ) (d m L N : ℕ) (p : List (List (List ℚ))) (C : List (List ℚ))
      (i : ℕ) (res : List (String × List Lit)) (a i' : ℕ), 1 ≤ L →
      rndCNF s d m L N p C i = some ((res, a), i') →
      (res.map Prod.fst).Nodup ∧ 1 ≤ res.length := by
  intro s d m L N p C i res a i' hL h
  unfold rndCNF at h
  refine ⟨(cnfLoop_inv (L * 10) [] i res a i' h).2.2.2.2 (by simp), ?_⟩
  exact cnfLoop_one (by omega) hL h

/-- Witness for C10 at a concrete run. -/
theorem claim10_witness :
    (([("¬A1", [(true, Atom.prop 1)])] : List (String × List Lit)).map Prod.fst).Nodup ∧
    1 ≤ ([("¬A1", [(true, Atom.prop 1)])] : List (String × List Lit)).length :=
  claim10_nonempty_nodup constZero 0 1 1 1 [] [[1]] 0
    [("¬A1", [(true, Atom.prop 1)])] 1 3 (by norm_num) (by with_unfolding_all rfl)

/-- C1 (amended): for every clause length `K ≥ 1`, the count `P` drawn by
`rnd_propnum` always satisfies `0 ≤ P`, and `P ≤ K` holds provided every
weight vector in the table has length at most `K + 1` (a longer vector
lets `P` exceed `K`: see the counterexample); the clause attempt then
builds exactly `P` propositional literals followed by `K − P` literals
from the depth's atom generator, hence `K` literals in total when
`P ≤ K`. -/
theorem claim1_prop_count :
    (∀ (s : ℕ → ℚ) (p : List (List (List ℚ))) (d K P i i' : ℕ), 1 ≤ K →
      rndPropnum s d p K i = some (P, i') →
      (∀ dd ∈ p, ∀ v ∈ dd, v.length ≤ K + 1) → P ≤ K) ∧
    (∀ (s : ℕ → ℚ) (N : ℕ) (ag : GenM Atom) (d : ℕ) (p : List (List (List ℚ)))
      (C : List (List ℚ)) (r : List Lit) (i i' : ℕ),
      clauseAttempt s N ag d p C i = some (r, i') →
      ∃ K i1 P i2 A i3 B,
        rndLength s d C i = some (K, i1) ∧ rndPropnum s d p K i1 = some (P, i2) ∧
        genLits s (propAtomG s N) P i2 = some (A, i3) ∧
        genLits s ag (K - P) i3 = some (B, i') ∧
        r = A ++ B ∧ A.length = P ∧ B.length = K - P ∧
        ∀ x ∈ A, ∃ n, x.2 = Atom.prop n) := by
  constructor
  · intro s p d K P i i' hK h hlen
    exact rndPropnum_le hK h hlen
  · intro s N ag d p C r i i' h
    unfold clauseAttempt at h
    obtain ⟨K, i1, hK, h⟩ := gbind_inv h
    obtain ⟨P, i2, hP, h⟩ := gbind_inv h
    obtain ⟨A, i3, hA, h⟩ := gbind_inv h
    obtain ⟨B, i4, hB, h⟩ := gbind_inv h
    obtain ⟨h1, h2⟩ := gpure_inv h
    have hpa : SatM (propAtomG s N) (fun a => ∃ n, a = Atom.prop n) := by
      intro i0 r0 i0a h0
      obtain ⟨n, hn, -, -⟩ := satM_propAtomG s N i0 r0 i0a h0
      exact ⟨n, hn⟩
    have hAlen := satM_genLits hpa P i2 A i3 hA
    have hBlen := satM_genLits (Q := fun _ => True) (fun _ _ _ _ => trivial) (K - P) i3 B i4 hB
    refine ⟨K, i1, P, i2, A, i3, B, hK, hP, hA, ?_, h1, hAlen.1, hBlen.1, ?_⟩
    · rw [h2]
      exact hB
    · intro x hx
      obtain ⟨n, hn⟩ := hAlen.2 x hx
      exact ⟨n, hn⟩

/-- Counterexample to C1 as stated: with the table `[[[0,0,1]]]` (whose
vector for `K = 1` has 3 entries) and draw `1/2`, `rnd_propnum` returns
`P = 2 > K = 1`. -/
theorem claim1_counterexample :
    rndPropnum constHalf 0 [[[0, 0, 1]]] 1 0 = some (2, 1) ∧ ¬ ((2 : ℕ) ≤ 1) :=
  ⟨by with_unfolding_all decide, by omega⟩

/-- Witness for C1 (amended): a bounded table gives `P ≤ K`, and a
concrete attempt decomposes into its `K`, `P` and literal draws. -/
theorem claim1_witness :
    ((1 : ℕ) ≤ 1) ∧
    (∃ K i1 P i2 A i3 B,
      rndLength constZero 0 cTab 0 = some (K, i1) ∧
      rndPropnum constZero 0 pTab K i1 = some (P, i2) ∧
      genLits constZero (propAtomG constZero 2) P i2 = some (A, i3) ∧
      genLits constZero (propAtomG constZero 2) (K - P) i3 = some (B, 4) ∧
      ([(true, Atom.prop 1)] : List Lit) = A ++ B ∧ A.length = P ∧ B.length = K - P ∧
      ∀ x ∈ A, ∃ n, x.2 = Atom.prop n) :=
  ⟨claim1_prop_count.1 constHalf [[[0, 1]]] 0 1 1 0 1 (by norm_num)
     (by with_unfolding_all decide) (by with_unfolding_all decide),
   claim1_prop_count.2 constZero 2 (propAtomG constZero 2) 0 pTab cTab
     [(true, Atom.prop 1)] 0 4 (by with_unfolding_all rfl)⟩

/-- C2 (amended): each invalid parameter setting — negative depth, clause
count below 1, variable count below 1, box count below 1 — makes `main`
fail with its validation error for every random stream (hence before any
draw is consumed) and produce no output.  The further condition of the
claim — a distribution table shorter than `depth + 1` — is NOT rejected
by the code: see the counterexample. -/
theorem claim2_param_validation :
    (∀ (s : ℕ → ℚ) (p : List (List (List ℚ))) (C : List (List ℚ)) (a : Args),
      a.depth < 0 → runMain s a p C = Except.error "depth must be non-negative") ∧
    (∀ (s : ℕ → ℚ) (p : List (List (List ℚ))) (C : List (List ℚ)) (a : Args),
      0 ≤ a.depth → a.clauses < 1 →
      runMain s a p C = Except.error "number of clauses must be at least 1") ∧
    (∀ (s : ℕ → ℚ) (p : List (List (List ℚ))) (C : List (List ℚ)) (a : Args),
      0 ≤ a.depth → 1 ≤ a.clauses → a.numVars < 1 →
      runMain s a p C = Except.error "number of variables must be at least 1") ∧
    (∀ (s : ℕ → ℚ) (p : List (List (List ℚ))) (C : List (List ℚ)) (a : Args),
      0 ≤ a.depth → 1 ≤ a.clauses → 1 ≤ a.numVars → a.boxes < 1 →
      runMain s a p C = Except.error "number of boxes must be at least 1") := by
  refine ⟨fun s p C a h => ?_, fun s p C a h1 h2 => ?_, fun s p C a h1 h2 h3 => ?_,
    fun s p C a h1 h2 h3 h4 => ?_⟩
  · unfold runMain validateArgs
    rw [if_pos h]
  · unfold runMain validateArgs
    rw [if_neg (not_lt.mpr h1), if_pos h2]
  · unfold runMain validateArgs
    rw [if_neg (not_lt.mpr h1), if_neg (not_lt.mpr h2), if_pos h3]
  · unfold runMain validateArgs
    rw [if_neg (not_lt.mpr h1), if_neg (not_lt.mpr h2), if_neg (not_lt.mpr h3), if_pos h4]

set_option maxHeartbeats 2000000 in
/-- Counterexample to C2's table-length condition: `shortTabArgs` (depth
1) with the empty clause-length table — shorter than `depth + 1 = 2` —
passes validation, and generation proceeds to a formula (7 draws
consumed) instead of failing. -/
theorem claim2_counterexample :
    validateArgs shortTabArgs = Except.ok () ∧
    ([] : List (List ℚ)).length < shortTabArgs.depth.toNat + 1 ∧
    runMain streamA shortTabArgs pFull [] = Except.ok (["A1 ∨ A2 ∨ A3"], 7) := by
  refine ⟨by with_unfolding_all rfl, by norm_num, ?_⟩
  with_unfolding_all rfl

/-- Witness for C2 (amended): each of the four invalid settings fails
with its message, for an arbitrary concrete stream and tables. -/
theorem claim2_witness :
    runMain constHalf ⟨-1, 4, 4, 1⟩ [] [] = Except.error "depth must be non-negative" ∧
    runMain constHalf ⟨2, 0, 4, 1⟩ [] [] = Except.error "number of clauses must be at least 1" ∧
    runMain constHalf ⟨2, 4, 0, 1⟩ [] [] = Except.error "number of variables must be at least 1" ∧
    runMain constHalf ⟨2, 4, 4, 0⟩ [] [] = Except.error "number of boxes must be at least 1" :=
  ⟨claim2_param_validation.1 constHalf [] [] ⟨-1, 4, 4, 1⟩ (by norm_num),
   claim2_param_validation.2.1 constHalf [] [] ⟨2, 0, 4, 1⟩ (by norm_num) (by norm_num),
   claim2_param_validation.2.2.1 constHalf [] [] ⟨2, 4, 0, 1⟩ (by norm_num) (by norm_num)
     (by norm_num),
   claim2_param_validation.2.2.2 constHalf [] [] ⟨2, 4, 4, 0⟩ (by norm_num) (by norm_num)
     (by norm_num) (by norm_num)⟩

lemma scenario_attempt_len {s : ℕ → ℚ} (hs : ∀ j, 0 < s j ∧ s j < 1) (ag : GenM Atom) :
    SatM (clauseAttempt s 2 ag 0 pTab cTab) (fun l => l.length = 3) := by
  intro i r i' h
  unfold clauseAttempt at h
  obtain ⟨K, i1, hK, h⟩ := gbind_inv h
  obtain ⟨P, i2, hP, h⟩ := gbind_inv h
  obtain ⟨A, i3, hA, h⟩ := gbind_inv h
  obtain ⟨B, i4, hB, h⟩ := gbind_inv h
  obtain ⟨h1, -⟩ := gpure_inv h
  have hK3 := rndLength_cTab (hs i).1 (hs i).2
  rw [hK] at hK3
  obtain ⟨hKv, hi1⟩ := Prod.ext_iff.mp (Option.some.inj hK3)
  subst hKv
  have hP3 := rndPropnum_pTab (hs i1).1 (hs i1).2
  rw [hP] at hP3
  obtain ⟨hPv, -⟩ := Prod.ext_iff.mp (Option.some.inj hP3)
  subst hPv
  have hAl := satM_genLits (Q := fun _ => True) (fun _ _ _ _ => trivial) 3 i2 A i3 hA
  have hBl := satM_genLits (Q := fun _ => True) (fun _ _ _ _ => trivial) (3 - 3) i3 B i4 hB
  rw [h1, List.length_append, hAl.1, hBl.1]

lemma scenario_clause_len {s : ℕ → ℚ} (hs : ∀ j, 0 < s j ∧ s j < 1) :
    SatM (rndClause s 1 2 pTab cTab 0) (fun l => l.length = 3) := by
  intro i l i' h
  unfold rndClause gmap at h
  obtain ⟨rr, jj, hrr, hpp⟩ := gbind_inv h
  obtain ⟨h1, -⟩ := gpure_inv hpp
  rw [rndClauseI_eq] at hrr
  have := satM_clauseTryI_pos (Q := fun l => l.length = 3)
    (scenario_attempt_len hs (rndAtom s 1 2 pTab cTab 0)) 99 [] i rr jj hrr
  rw [h1]
  exact this

lemma scenario_clause_atoms (s : ℕ → ℚ) :
    SatM (rndClause s 1 2 pTab cTab 0)
      (fun l => ∀ x ∈ l, ∃ n, x.2 = Atom.prop n ∧ (n = 1 ∨ n = 2)) := by
  intro i l i' h
  unfold rndClause gmap at h
  obtain ⟨rr, jj, hrr, hpp⟩ := gbind_inv h
  obtain ⟨h1, -⟩ := gpure_inv hpp
  rw [rndClauseI_eq] at hrr
  have hpa : SatM (propAtomG s 2) (fun a => ∃ n, a = Atom.prop n ∧ (n = 1 ∨ n = 2)) := by
    intro i0 a i0a h0
    obtain ⟨n, hn, hn1, hn2⟩ := satM_propAtomG s 2 i0 a i0a h0
    exact ⟨n, hn, by omega⟩
  have hatt := satM_clauseAttempt (s := s) (N := 2) (d := 0) (p := pTab) (C := cTab) hpa hpa
  have := satM_clauseTryI hatt 100 [] (by simp) i rr jj hrr
  rw [h1]
  intro x hx
  exact this.1 x hx

/-- C4 (amended): with the spec's fixed scenario parameters — depth 0,
clause count 2, variable count 2, box count 1, length table `[[0,0,1]]`,
mix table forcing `P = K` — every successful run returns between 1 and 2
pairwise textually distinct clauses; every literal of every returned
clause is a propositional atom over the variables `{1, 2}` (no modal atom
appears); and when every draw lies strictly between 0 and 1 each clause
has exactly 3 literals.  The run is NOT always exactly 2 clauses (the
claim as stated): see the counterexample. -/
theorem claim4_fixed_scenario :
    ∀ (s : ℕ → ℚ) (i : ℕ) (res : List (String × List Lit)) (a i' : ℕ),
      rndCNF s 0 1 2 2 pTab cTab i = some ((res, a), i') →
      1 ≤ res.length ∧ res.length ≤ 2 ∧ (res.map Prod.fst).Nodup ∧
      (∀ pr ∈ res, ∀ x ∈ pr.2, ∃ n, x.2 = Atom.prop n ∧ (n = 1 ∨ n = 2)) ∧
      ((∀ j, 0 < s j ∧ s j < 1) → ∀ pr ∈ res, pr.2.length = 3) := by
  intro s i res a i' h
  unfold rndCNF at h
  refine ⟨cnfLoop_one (by omega) (by omega) h,
    (cnfLoop_inv (2 * 10) [] i res a i' h).2.2.2.1 (by simp),
    (cnfLoop_inv (2 * 10) [] i res a i' h).2.2.2.2 (by simp), ?_, ?_⟩
  · intro pr hpr
    exact (cnfLoop_satall (scenario_clause_atoms s) (2 * 10) [] i res a i' (by simp) h
      pr hpr).1
  · intro hs pr hpr
    exact (cnfLoop_satall (scenario_clause_len hs) (2 * 10) [] i res a i' (by simp) h
      pr hpr).1

/-- Counterexample to C4 as stated: under the constant-`1/2` stream every
clause draw degrades to `A2 ∨ A2 ∨ A2`, so the run returns exactly ONE
clause (after the full 20-attempt budget), not 2. -/
theorem claim4_counterexample :
    Option.map (fun r => (r.1.1.map Prod.fst, r.1.2))
      (rndCNF constHalf 0 1 2 2 pTab cTab 0) = some (["A2 ∨ A2 ∨ A2"], 20) ∧
    ¬ ((["A2 ∨ A2 ∨ A2"] : List String).length = 2) := by
  have hatt : ∀ i,
      clauseAttempt constHalf 2 (rndAtom constHalf 1 2 pTab cTab 0) 0 pTab cTab i =
      some (List.replicate 3 (false, Atom.prop 2), i + 8) := by
    intro i
    unfold clauseAttempt
    rw [gbind_of (rndLength_cTab (by norm_num [constHalf]) (by norm_num [constHalf]))]
    rw [gbind_of (rndPropnum_pTab (by norm_num [constHalf]) (by norm_num [constHalf]))]
    rw [gbind_of (genLits_const propAtomG_half_two rndSign_half 3 (i + 1 + 1))]
    rw [show (3 - 3 : ℕ) = 0 from rfl]
    rw [gbind_of (show genLits constHalf (rndAtom constHalf 1 2 pTab cTab 0) 0
      (i + 1 + 1 + 2 * 3) = some ([], i + 1 + 1 + 2 * 3) from rfl)]
    rw [gpure_eq]
    simp only [List.append_nil]
  have hfail : noRepeatedAtomsIn ((List.replicate 3 ((false : Bool), Atom.prop 2)).map
      litStr) = false := by with_unfolding_all decide
  have hcl : ∀ i, rndClause constHalf 1 2 pTab cTab 0 i =
      some (List.replicate 3 (false, Atom.prop 2), i + 800) := by
    intro i
    unfold rndClause gmap
    rw [rndClauseI_eq]
    rw [show (100 : ℕ) = 99 + 1 from rfl]
    rw [gbind_of (clauseTryI_const_fail hatt hfail 99 [] i)]
    rw [gpure_eq]
  constructor
  · have hstr : clauseJoin ((List.replicate 3 ((false : Bool), Atom.prop 2)).map litStr) =
        "A2 ∨ A2 ∨ A2" := by with_unfolding_all decide
    have hmem : isNew (clauseJoin ((List.replicate 3 ((false : Bool), Atom.prop 2)).map
        litStr)) [(clauseJoin ((List.replicate 3 ((false : Bool), Atom.prop 2)).map litStr),
        List.replicate 3 (false, Atom.prop 2))] = false := by
      with_unfolding_all decide
    have hrun : rndCNF constHalf 0 1 2 2 pTab cTab 0 =
        some (([(clauseJoin ((List.replicate 3 ((false : Bool), Atom.prop 2)).map litStr),
          List.replicate 3 (false, Atom.prop 2))], 20), 16000) := by
      unfold rndCNF
      rw [show (2 * 10 : ℕ) = 19 + 1 from rfl]
      unfold cnfLoop
      rw [if_pos (by norm_num)]
      rw [gbind_of (hcl 0)]
      rw [if_pos (show isNew (clauseJoin ((List.replicate 3 ((false : Bool),
        Atom.prop 2)).map litStr)) [] = true from rfl)]
      rw [List.nil_append]
      rw [gbind_of (cnfLoop_const_skip hcl
        [(clauseJoin ((List.replicate 3 ((false : Bool), Atom.prop 2)).map litStr),
          List.replicate 3 (false, Atom.prop 2))] hmem (by norm_num) 19 (0 + 800))]
      rw [gpure_eq]
    rw [hrun, hstr]
    rfl
  · norm_num

set_option maxHeartbeats 1000000 in
/-- Witness for C4 (amended) at a stream reaching two distinct clauses in
8 draws. -/
theorem claim4_witness :
    1 ≤ ([("¬A1", [(true, Atom.prop 1)]), ("A1", [(false, Atom.prop 1)])] :
      List (String × List Lit)).length ∧
    ([("¬A1", [(true, Atom.prop 1)]), ("A1", [(false, Atom.prop 1)])] :
      List (String × List Lit)).length ≤ 2 ∧
    (([("¬A1", [(true, Atom.prop 1)]), ("A1", [(false, Atom.prop 1)])] :
      List (String × List Lit)).map Prod.fst).Nodup ∧
    (∀ pr ∈ ([("¬A1", [(true, Atom.prop 1)]), ("A1", [(false, Atom.prop 1)])] :
      List (String × List Lit)), ∀ x ∈ pr.2, ∃ n, x.2 = Atom.prop n ∧ (n = 1 ∨ n = 2)) ∧
    ((∀ j, 0 < streamB j ∧ streamB j < 1) →
      ∀ pr ∈ ([("¬A1", [(true, Atom.prop 1)]), ("A1", [(false, Atom.prop 1)])] :
        List (String × List Lit)), pr.2.length = 3) := by
  have hatt0 : clauseAttempt streamB 2 (rndAtom streamB 1 2 pTab cTab 0) 0 pTab cTab 0 =
      some ([(true, Atom.prop 1)], 4) := by with_unfolding_all rfl
  have hatt4 : clauseAttempt streamB 2 (rndAtom streamB 1 2 pTab cTab 0) 0 pTab cTab 4 =
      some ([(false, Atom.prop 1)], 8) := by with_unfolding_all rfl
  have hI0 : rndClauseI streamB 1 2 pTab cTab 0 0 = some (([(true, Atom.prop 1)], 1), 4) := by
    rw [rndClauseI_eq, show (100 : ℕ) = 99 + 1 from rfl]
    unfold clauseTryI
    rw [gbind_of hatt0, if_pos (by with_unfolding_all decide :
      noRepeatedAtomsIn (([(true, Atom.prop 1)] : List Lit).map litStr) = true)]
    rfl
  have hI4 : rndClauseI streamB 1 2 pTab cTab 0 4 = some (([(false, Atom.prop 1)], 1), 8) := by
    rw [rndClauseI_eq, show (100 : ℕ) = 99 + 1 from rfl]
    unfold clauseTryI
    rw [gbind_of hatt4, if_pos (by with_unfolding_all decide :
      noRepeatedAtomsIn (([(false, Atom.prop 1)] : List Lit).map litStr) = true)]
    rfl
  have hcl0 : rndClause streamB 1 2 pTab cTab 0 0 = some ([(true, Atom.prop 1)], 4) := by
    unfold rndClause gmap
    rw [gbind_of hI0]
    rfl
  have hcl4 : rndClause streamB 1 2 pTab cTab 0 4 = some ([(false, Atom.prop 1)], 8) := by
    unfold rndClause gmap
    rw [gbind_of hI4]
    rfl
  have hstr0 : clauseJoin (([(true, Atom.prop 1)] : List Lit).map litStr) = "¬A1" := by
    with_unfolding_all decide
  have hstr1 : clauseJoin (([(false, Atom.prop 1)] : List Lit).map litStr) = "A1" := by
    with_unfolding_all decide
  have ha : cnfLoop (rndClause streamB 1 2 pTab cTab 0) 2 18
      [("¬A1", [(true, Atom.prop 1)]), ("A1", [(false, Atom.prop 1)])] 8 =
      some (([("¬A1", [(true, Atom.prop 1)]), ("A1", [(false, Atom.prop 1)])], 0), 8) := by
    rw [show (18 : ℕ) = 17 + 1 from rfl,
      cnfLoop_halt (by norm_num : ¬ ([("¬A1", ([(true, Atom.prop 1)] : List Lit)),
        ("A1", [(false, Atom.prop 1)])]).length < 2)]
    rfl
  have hb : cnfLoop (rndClause streamB 1 2 pTab cTab 0) 2 19
      [("¬A1", [(true, Atom.prop 1)])] 4 =
      some (([("¬A1", [(true, Atom.prop 1)]), ("A1", [(false, Atom.prop 1)])], 1), 8) := by
    rw [show (19 : ℕ) = 18 + 1 from rfl,
      cnfLoop_go (by norm_num : ([("¬A1", ([(true, Atom.prop 1)] : List Lit))]).length < 2),
      gbind_of hcl4, hstr1]
    rw [if_pos (show isNew "A1" [("¬A1", [(true, Atom.prop 1)])] = true from by
      with_unfolding_all decide)]
    rw [show ([("¬A1", ([(true, Atom.prop 1)] : List Lit))] ++
      [("A1", ([(false, Atom.prop 1)] : List Lit))]) =
      [("¬A1", [(true, Atom.prop 1)]), ("A1", [(false, Atom.prop 1)])] from rfl]
    rw [gbind_of ha]
    rfl
  have hrun : rndCNF streamB 0 1 2 2 pTab cTab 0 =
      some (([("¬A1", [(true, Atom.prop 1)]), ("A1", [(false, Atom.prop 1)])], 2), 8) := by
    unfold rndCNF
    rw [show (2 * 10 : ℕ) = 19 + 1 from rfl,
      cnfLoop_go (by norm_num : ([] : List (String × List Lit)).length < 2),
      gbind_of hcl0, hstr0]
    rw [if_pos (show isNew "¬A1" [] = true from rfl), List.nil_append]
    rw [gbind_of hb]
    rfl
  exact claim4_fixed_scenario streamB 0
    [("¬A1", [(true, Atom.prop 1)]), ("A1", [(false, Atom.prop 1)])] 2 8 hrun

/-- C7: when every one of the 100 attempts of `rnd_clause`'s retry loop
produces a clause violating the no-duplicate-atom invariant, the function
returns the 100th (last-drawn) clause, canonically sorted and serialized,
rather than raising; each retry re-runs the whole attempt — `K`, `P` and
all literals are drawn afresh, which is exactly what iterating the full
attempt generator (`iterAtt`) expresses. -/
theorem claim7_budget_exhaustion :
    ∀ (s : ℕ → ℚ) (m N : ℕ) (p : List (List (List ℚ))) (C : List (List ℚ)) (d i : ℕ),
      (∀ k, k < 100 → ∀ c j,
        iterAtt (clauseAttempt s N (rndAtom s m N p C d) d p C) k i = some (c, j) →
        noRepeatedAtomsIn (c.map litStr) = false) →
      ∀ c j, iterAtt (clauseAttempt s N (rndAtom s m N p C d) d p C) 99 i = some (c, j) →
        rndClauseI s m N p C d i = some ((c, 100), j) ∧
        rndClauseStr s m N p C d i = some (clauseJoin (c.map litStr), j) := by
  intro s m N p C d i hf c j hit
  have h1 : rndClauseI s m N p C d i = some ((c, 100), j) := by
    rw [rndClauseI_eq, show (100 : ℕ) = 99 + 1 from rfl]
    exact clauseTryI_all_fail 99 i [] hf c j hit
  have h2 : rndClause s m N p C d i = some (c, j) := by
    unfold rndClause gmap
    rw [gbind_of h1]
    rfl
  refine ⟨h1, ?_⟩
  unfold rndClauseStr gmap
  rw [gbind_of h2]
  rfl

/-- Witness for C7: with one variable, forced length 2 and forced
`P = K`, the constant-`1/2` stream makes every attempt draw the
duplicated clause `A1, A1`; after 100 failed attempts (600 draws) the
degraded clause is returned, serialized as `"A1 ∨ A1"`. -/
theorem claim7_witness :
    rndClauseI constHalf 1 1 pTwo lenTwoTab 0 0 =
      some ((([(false, Atom.prop 1), (false, Atom.prop 1)] : List Lit), 100), 600) ∧
    rndClauseStr constHalf 1 1 pTwo lenTwoTab 0 0 = some ("A1 ∨ A1", 600) := by
  have hatt : ∀ i,
      clauseAttempt constHalf 1 (rndAtom constHalf 1 1 pTwo lenTwoTab 0) 0 pTwo lenTwoTab i =
      some ([(false, Atom.prop 1), (false, Atom.prop 1)], i + 6) := by
    intro i
    unfold clauseAttempt
    rw [gbind_of (rndLength_lenTwoTab i)]
    rw [gbind_of (rndPropnum_pTwo (i + 1))]
    rw [gbind_of (genLits_const propAtomG_half_one rndSign_half 2 (i + 1 + 1))]
    rw [show (2 - 2 : ℕ) = 0 from rfl]
    rw [gbind_of (show genLits constHalf (rndAtom constHalf 1 1 pTwo lenTwoTab 0) 0
      (i + 1 + 1 + 2 * 2) = some ([], i + 1 + 1 + 2 * 2) from rfl)]
    rw [gpure_eq]
    simp only [List.append_nil]
    norm_num [List.replicate]
  have hfail : noRepeatedAtomsIn
      (([(false, Atom.prop 1), (false, Atom.prop 1)] : List Lit).map litStr) = false := by
    with_unfolding_all decide
  have happ := claim7_budget_exhaustion constHalf 1 1 pTwo lenTwoTab 0 0
    (by
      intro k hk c j hit
      rw [iterAtt_const hatt k 0] at hit
      injection hit with h
      injection h with h1 h2
      rw [← h1]
      exact hfail)
    [(false, Atom.prop 1), (false, Atom.prop 1)] 600
    (by rw [iterAtt_const hatt 99 0])
  obtain ⟨ha, hb⟩ := happ
  refine ⟨ha, ?_⟩
  rw [hb]
  rw [show clauseJoin (([(false, Atom.prop 1), (false, Atom.prop 1)] :
    List Lit).map litStr) = "A1 ∨ A1" from by with_unfolding_all decide]

end S5Gen
